import Mathlib

/-!
Verification development for the NeuroAssistant asynchronous inference
job pipeline.  The definitions below are shallow embeddings of the
TypeScript source: the smart router (`src/lib/smart-router.ts`), the
provider adapter fallback logic (`src/lib/ai-providers.ts`), the explain
endpoint (`src/app/api/explain/route.ts`), the SSE status stream bridge
(`src/app/api/queue/stream/[jobId]/route.ts`), the job priority table
(`src/backend/queue/jobs.ts`) and the client-side batch assembler
(`processSummaryQueue` / `generateBatchSummaries` in the PDF reader
component).
-/

namespace NeuroAssistant

/-- The five configured model providers (`ModelSelection.provider` in
`smart-router.ts`). -/
inductive Provider where
  | groq
  | siliconflow
  | gemini
  | github
  | huggingface
deriving DecidableEq, Repr

/-- Task types accepted by the router (`RouterInput.taskType`). -/
inductive TaskType where
  | simple
  | complex_reasoning
  | long_context
  | vision
deriving DecidableEq, Repr

/-- `RouterInput` from `smart-router.ts`.  Optional JS fields are
modelled with `Option`. -/
structure RouterInput where
  text : String
  hasImage : Option Bool := none
  historyLength : Option Nat := none
  taskType : Option TaskType := none
  wordCount : Option Nat := none

/-- `ModelSelection` from `smart-router.ts`. -/
structure ModelSelection where
  provider : Provider
  modelId : String
  baseUrl : Option String := none
  reason : String
deriving DecidableEq, Repr

/-- Number of maximal whitespace runs in a character list (`prevWs`
records whether the previous character was whitespace). -/
def countWsRuns : List Char → Bool → Nat
  | [], _ => 0
  | c :: rest, prevWs =>
    if c.isWhitespace then
      (if prevWs then 0 else 1) + countWsRuns rest true
    else
      countWsRuns rest false

/-- Length of the array produced by JavaScript
`text.split(/\s+/)`: one more than the number of maximal whitespace
runs (leading/trailing runs contribute empty-string entries, exactly as
in JS). -/
def jsSplitWsCount (s : String) : Nat :=
  1 + countWsRuns s.toList false

/-- Effective word count used by `selectModel`:
`input.wordCount || input.text.split(/\s+/).length` (note that a
JS value of `0` is falsy and falls through to the split count). -/
def effWordCount (input : RouterInput) : Nat :=
  match input.wordCount with
  | some w => if w = 0 then jsSplitWsCount input.text else w
  | none => jsSplitWsCount input.text

/-- Effective `hasImage` (`input.hasImage || false`). -/
def effHasImage (input : RouterInput) : Bool :=
  match input.hasImage with
  | some b => b
  | none => false

/-- Effective history length (`input.historyLength || 0`). -/
def effHistoryLength (input : RouterInput) : Nat :=
  match input.historyLength with
  | some n => n
  | none => 0

/-- Effective task type (`input.taskType || "simple"`). -/
def effTaskType (input : RouterInput) : TaskType :=
  match input.taskType with
  | some t => t
  | none => .simple

/-- `selectModel` from `smart-router.ts`, rule for rule. -/
def selectModel (input : RouterInput) : ModelSelection :=
  let wordCount := effWordCount input
  let hasImage := effHasImage input
  let historyLength := effHistoryLength input
  let taskType := effTaskType input
  if hasImage || decide (wordCount > 10000) || decide (input.text.length > 50000) then
    { provider := .gemini
      modelId := "gemini-1.5-flash"
      reason := "Large context or image input - Gemini handles 1M tokens and vision" }
  else if taskType = .complex_reasoning then
    { provider := .huggingface
      modelId := "meta-llama/Llama-3.1-8B-Instruct"
      baseUrl := some "https://api-inference.huggingface.co/v1"
      reason := "Complex reasoning task - Using HuggingFace Llama model" }
  else if historyLength > 10 then
    { provider := .siliconflow
      modelId := "Qwen/Qwen2.5-7B-Instruct"
      baseUrl := some "https://api.siliconflow.cn/v1"
      reason := "Long conversation history - SiliconFlow has 500K TPM capacity" }
  else
    { provider := .groq
      modelId := "llama-3.1-8b-instant"
      baseUrl := some "https://api.groq.com/openai/v1"
      reason := "Short interaction - Groq provides instant latency (~0.2s)" }

/-! ## Provider adapter (`src/lib/ai-providers.ts`) -/

/-- Environment-variable name required by each provider
(`checkApiKeys` in `ai-providers.ts`). -/
def apiKeyName : Provider → String
  | .groq => "GROQ_API_KEY"
  | .siliconflow => "SILICONFLOW_API_KEY"
  | .gemini => "GOOGLE_GENERATIVE_AI_API_KEY"
  | .github => "GITHUB_TOKEN"
  | .huggingface => "HUGGINGFACE_API_KEY"

/-- Result record of `checkApiKeys`. -/
structure KeyCheck where
  available : Bool
  missing : List String
deriving DecidableEq, Repr

/-- `checkApiKeys` from `ai-providers.ts`: the credential environment is
abstracted as `env : Provider → Bool` (whether the provider's key
variable is set). -/
def checkApiKeys (env : Provider → Bool) (p : Provider) : KeyCheck :=
  { available := env p
    missing := if env p then [] else [apiKeyName p] }

/-- Errors thrown inside `streamFromProvider`. -/
inductive StreamErr where
  /-- The gemini `case` throws unconditionally
  ("Gemini provider requires @ai-sdk/google package"). -/
  | geminiUnsupported
  /-- Abstract upstream/network failure of a chat-completions call. -/
  | upstream (p : Provider) (code : Nat)
deriving DecidableEq, Repr

/-- One primary-provider invocation: the `switch` statement of
`streamFromProvider`.  The four OpenAI-compatible providers perform a
network call (abstracted by the oracle `network`); the gemini branch
throws before any network traffic. -/
def invokePrimary (network : Provider → Except StreamErr String) :
    Provider → Except StreamErr String
  | .gemini => .error .geminiUnsupported
  | p => network p

/-- The fixed fallback priority list of the spec:
`[fast, high-volume, alternative-reasoning, vision, reasoning-tier]`. -/
def fullFallbackPriority : List Provider :=
  [.groq, .siliconflow, .huggingface, .gemini, .github]

/-- Fallback list constructed at the missing-credentials path of the
explain route (`route.ts` line 32): the full five-provider list with
the already-selected provider filtered out. -/
def explainFallbackProviders (p : Provider) : List Provider :=
  ([.groq, .siliconflow, .huggingface, .gemini, .github] :
    List Provider).filter (fun q => q != p)

/-- Fallback list constructed inside the `catch` of
`streamFromProvider` (`ai-providers.ts` line 158): note that this list
omits `github`. -/
def streamFallbackProviders (p : Provider) : List Provider :=
  ([.groq, .siliconflow, .huggingface, .gemini] :
    List Provider).filter (fun q => q != p)

/-- The fallback `for` loop in the `catch` of `streamFromProvider`:
skip providers without credentials, `continue` on the gemini branch
without invoking it, invoke the rest and return the first success.
Also returns the list of providers actually invoked over the network. -/
def runFallbacks (env : Provider → Bool)
    (network : Provider → Except StreamErr String) :
    List Provider → List Provider × Option String
  | [] => ([], none)
  | p :: rest =>
    if (checkApiKeys env p).available then
      match p with
      | .gemini => runFallbacks env network rest
      | .github => runFallbacks env network rest
      | _ =>
        match network p with
        | .ok s => ([p], some s)
        | .error _ =>
          let r := runFallbacks env network rest
          (p :: r.1, r.2)
    else runFallbacks env network rest

/-- Network attempts made by the primary `switch`: every provider but
gemini issues one call; the gemini branch throws first. -/
def primaryAttempts : Provider → List Provider
  | .gemini => []
  | p => [p]

/-- `streamFromProvider` from `ai-providers.ts`: try the primary
provider; on an exception, if the primary is not `siliconflow`, walk
the fallback list; rethrow the original error when no fallback
succeeds.  Returns the trace of providers invoked over the network
together with the outcome. -/
def streamFromProvider (env : Provider → Bool)
    (network : Provider → Except StreamErr String) (primary : Provider) :
    List Provider × Except StreamErr String :=
  match invokePrimary network primary with
  | .ok s => (primaryAttempts primary, .ok s)
  | .error e =>
    if primary = .siliconflow then
      (primaryAttempts primary, .error e)
    else
      let r := runFallbacks env network (streamFallbackProviders primary)
      match r.2 with
      | some s => (primaryAttempts primary ++ r.1, .ok s)
      | none => (primaryAttempts primary ++ r.1, .error e)

/-- Reference walk of a fallback chain: attempt every provider that has
credentials, in order, through its faithful invocation
(`invokePrimary`, under which gemini always throws); first success
wins. -/
def chainAttempt (env : Provider → Bool)
    (network : Provider → Except StreamErr String) :
    List Provider → Option String
  | [] => none
  | p :: rest =>
    if (checkApiKeys env p).available then
      match invokePrimary network p with
      | .ok s => some s
      | .error _ => chainAttempt env network rest
    else chainAttempt env network rest

/-! ## Explain endpoint (`src/app/api/explain/route.ts`) -/

/-- JSON primitive values, for modelling loosely-typed request fields. -/
inductive JsonVal where
  | jstr (s : String)
  | jnum (n : Int)
  | jbool (b : Bool)
  | jnull
deriving DecidableEq, Repr

/-- Request body of the explain endpoint. -/
structure ExplainBody where
  term : Option JsonVal := none
  taskType : Option TaskType := none
  context : Option JsonVal := none

/-- Human-readable provider name (template literals in the route). -/
def providerName : Provider → String
  | .groq => "groq"
  | .siliconflow => "siliconflow"
  | .gemini => "gemini"
  | .github => "github"
  | .huggingface => "huggingface"

/-- Hard-coded fallback `ModelSelection` built by the explain route
when the primary provider's key is missing (`route.ts` lines 44-67). -/
def fallbackSelection (p : Provider) : ModelSelection :=
  { provider := p
    modelId :=
      match p with
      | .groq => "llama-3.1-8b-instant"
      | .siliconflow => "Qwen/Qwen2.5-7B-Instruct"
      | .gemini => "gemini-1.5-flash"
      | .huggingface => "meta-llama/Llama-3.1-8B-Instruct"
      | .github => "gpt-4o"
    baseUrl :=
      match p with
      | .groq => some "https://api.groq.com/openai/v1"
      | .siliconflow => some "https://api.siliconflow.cn/v1"
      | .huggingface => some "https://api-inference.huggingface.co/v1"
      | .github => some "https://models.inference.ai.azure.com"
      | .gemini => none
    reason := "Primary provider unavailable, using " ++ providerName p ++ " as fallback" }

/-- First provider of a list whose credentials are configured
(the `for` loop over `availableFallbacks` in the explain route). -/
def findFirstAvailable (env : Provider → Bool) :
    List Provider → Option Provider
  | [] => none
  | p :: rest =>
    if (checkApiKeys env p).available then some p
    else findFirstAvailable env rest

/-- Outcome of the explain route up to (but not including) the provider
invocation. -/
inductive ExplainOutcome where
  /-- Early `400` response ("Term is required"). -/
  | badRequest (status : Nat) (errorMsg : String)
  /-- `500` response after exhausting the fallback list. -/
  | noProviders (status : Nat) (errorMsg : String)
  /-- The route proceeds to call `streamFromProvider` with this selection. -/
  | invoke (selection : ModelSelection)
deriving DecidableEq, Repr

/-- Error message of the no-providers `500` response. -/
def noKeysMsg : String :=
  "No API keys configured. Please configure at least one provider (GROQ_API_KEY, SILICONFLOW_API_KEY, HUGGINGFACE_API_KEY, GOOGLE_GENERATIVE_AI_API_KEY, or GITHUB_TOKEN) in your environment variables."

/-- `POST` handler of `src/app/api/explain/route.ts`, modelled up to
the point where it would invoke a provider.  The term guard
`!term || typeof term !== "string"` rejects a missing field, any
non-string JSON value, and the empty string (which is falsy). -/
def explainPOST (env : Provider → Bool) (body : ExplainBody) : ExplainOutcome :=
  match body.term with
  | some (.jstr t) =>
    if t = "" then .badRequest 400 "Term is required"
    else
      let selection := selectModel
        { text := t
          taskType := some (body.taskType.getD .simple)
          wordCount := some (jsSplitWsCount t) }
      if (checkApiKeys env selection.provider).available then
        .invoke selection
      else
        match findFirstAvailable env (explainFallbackProviders selection.provider) with
        | some p => .invoke (fallbackSelection p)
        | none => .noProviders 500 noKeysMsg
  | _ => .badRequest 400 "Term is required"

/-- Modelled from the spec: the `summarize` / `summarize-batch` job
submission endpoints are not among the provided sources (only the
explain route is).  Per §4.2 and §7 of the specification, a submission
checks the selected provider's credentials and walks the fixed fallback
order, and "if no configured provider has credentials, job submission
for any type yields ProviderUnavailable/MissingCredentials, never a
hang". -/
def submitJobModel (env : Provider → Bool) (selection : ModelSelection) :
    ExplainOutcome :=
  if (checkApiKeys env selection.provider).available then
    .invoke selection
  else
    match findFirstAvailable env (explainFallbackProviders selection.provider) with
    | some p => .invoke (fallbackSelection p)
    | none => .noProviders 500 "ProviderUnavailable: no provider credentials configured"

/-! ## Job queue (`src/backend/queue/jobs.ts`) -/

/-- The three job types of the pipeline (`JobType` in `jobs.ts`;
`summarizeBatch` stands for the string literal `"summarize-batch"`). -/
inductive JobType where
  | explain
  | summarize
  | summarizeBatch
deriving DecidableEq, Repr

/-- `JOB_PRIORITIES` from `jobs.ts` (higher number = higher priority). -/
def JOB_PRIORITIES : JobType → Nat
  | .explain => 10
  | .summarizeBatch => 5
  | .summarize => 1

/-- A queued job, reduced to the fields the dispatch order depends on. -/
structure Job where
  jobId : Nat
  type : JobType
  createdAt : Nat
deriving DecidableEq, Repr

/-- Strict dispatch precedence: higher priority first, earlier
`createdAt` first within equal priority. -/
def jobBefore (a b : Job) : Bool :=
  decide (JOB_PRIORITIES b.type < JOB_PRIORITIES a.type) ||
    (decide (JOB_PRIORITIES a.type = JOB_PRIORITIES b.type) &&
      decide (a.createdAt < b.createdAt))

/-- Non-strict dispatch order (`a` may be dequeued no later than `b`). -/
def jobOrd (a b : Job) : Prop :=
  JOB_PRIORITIES b.type < JOB_PRIORITIES a.type ∨
    (JOB_PRIORITIES a.type = JOB_PRIORITIES b.type ∧ a.createdAt ≤ b.createdAt)

/-- Select the job with highest precedence, keeping the earlier-listed
job on ties. -/
def selectBest : Job → List Job → Job
  | best, [] => best
  | best, j :: rest => selectBest (if jobBefore j best then j else best) rest

/-- Modelled from the spec: `claimNext` lives in
`src/backend/queue/queue.ts`, which is not among the provided sources
(only its type definitions in `jobs.ts` are).  Per §4.1 of the
specification it "must select among queued jobs the one with
(a) highest priority, (b) among ties, earliest createdAt" and remove it
from the queued set. -/
def claimNext (queued : List Job) : Option (Job × List Job) :=
  match queued with
  | [] => none
  | j :: rest =>
    let b := selectBest j rest
    some (b, (j :: rest).erase b)

/-- Repeatedly claim jobs until the queue is empty (fuel-indexed). -/
def drainJobsGo : Nat → List Job → List Job
  | 0, _ => []
  | fuel + 1, q =>
    match claimNext q with
    | none => []
    | some (b, rest) => b :: drainJobsGo fuel rest

/-- The full dequeue sequence produced by repeatedly calling
`claimNext` on a queued set. -/
def drainJobs (q : List Job) : List Job :=
  drainJobsGo q.length q

/-! ## Status stream bridge (`src/app/api/queue/stream/[jobId]/route.ts`) -/

/-- The `data` payload of a job result (`result.data`): scalar text for
explain jobs, a page-keyed map for batch summaries, or some other JSON
value (modelled by a number). -/
inductive ResultData where
  | str (s : String)
  | obj (entries : List (String × String))
  | num (n : Int)
deriving DecidableEq, Repr

/-- JavaScript truthiness of a result payload. -/
def ResultData.truthy : ResultData → Bool
  | .str s => s != ""
  | .obj _ => true
  | .num n => n != 0

/-- `JobResult` fields read by the stream route. -/
structure JobResultM where
  success : Bool
  data : Option ResultData := none
deriving DecidableEq, Repr

/-- The `progress` field: a percentage or an object with optional
incremental content. -/
inductive ProgressM where
  | pct (n : Nat)
  | contentObj (content : Option String)
deriving DecidableEq, Repr

/-- `JobStatus` fields read by the stream route.  `status` is kept as a
string, exactly as the route compares it. -/
structure JobStatusM where
  status : String
  result : Option JobResultM := none
  error : Option String := none
  progress : Option ProgressM := none
deriving DecidableEq, Repr

/-- Events pushed on the SSE stream.  `done` is the terminal sentinel
line `data: [DONE]\n\n`; the other constructors are `sendEvent`
payloads. -/
inductive SEvent where
  /-- `{error: "Job not found"}` -/
  | notFound
  /-- `{type: "result", data: ...}` -/
  | result (d : ResultData)
  /-- `{type: "error", data: {message}}` -/
  | errorEv (msg : String)
  /-- `{type: "status", data: {status: "processing"}}` -/
  | statusProcessing
  /-- `{type: "progress", data: {content}}` -/
  | progress (content : String)
  /-- the literal line `data: [DONE]\n\n` -/
  | done
deriving DecidableEq, Repr

/-- Mutable state of one open stream: the `lastStatus` variable and
whether the controller has been closed. -/
structure BridgeState where
  lastStatus : Option String := none
  closed : Bool := false
deriving DecidableEq, Repr

/-- JavaScript `x || d` on an optional string (an empty string is
falsy). -/
def jsOrDefault (o : Option String) (d : String) : String :=
  match o with
  | some s => if s = "" then d else s
  | none => d

/-- Events sent for a completed status carrying `result`: a `result`
event only when `result.success && result.data` is truthy and the data
is a string or an object (`typeof` dispatch); a bare number satisfies
neither branch and sends nothing. -/
def completedEvents (r : JobResultM) : List SEvent :=
  if r.success then
    match r.data with
    | some d =>
      if d.truthy then
        match d with
        | .str _ => [.result d]
        | .obj _ => [.result d]
        | .num _ => []
      else []
    | none => []
  else []

/-- One tick of the `setInterval` poll handler in the stream route. -/
def pollStep (st : BridgeState) (polled : Option JobStatusM) :
    List SEvent × BridgeState :=
  match polled with
  | none => ([.notFound], { st with closed := true })
  | some s =>
    if st.lastStatus ≠ some s.status then
      if s.status = "completed" && s.result.isSome then
        (completedEvents (s.result.getD ⟨false, none⟩) ++ [.done],
          { st with closed := true })
      else if s.status = "failed" then
        ([.errorEv (jsOrDefault s.error "Job failed"), .done],
          { st with closed := true })
      else if s.status = "processing" then
        ([.statusProcessing], { st with lastStatus := some s.status })
      else
        ([], { st with lastStatus := some s.status })
    else
      match s.progress with
      | some (.contentObj (some c)) =>
        if c ≠ "" then ([.progress c], st) else ([], st)
      | _ => ([], st)

/-- Run the poll loop over a sequence of polled statuses, stopping as
soon as the stream closes (after `controller.close()` the interval is
cleared and nothing further is emitted). -/
def runPolls (st : BridgeState) : List (Option JobStatusM) → List SEvent
  | [] => []
  | p :: rest =>
    let r := pollStep st p
    r.1 ++ (if r.2.closed then [] else runPolls r.2 rest)

/-! ## Batch assembler (`processSummaryQueue` / `generateBatchSummaries`
in the PDF reader component)

Within one invocation of `processSummaryQueue` the React state values
`pageSummaryCache` and `generatingSummaries` are captured by the
closure at render time, so the checks inside the drain loop read fixed
snapshots; they are modelled as constant parameters `cache` and `gen`.
`setPageSummary` calls are collected as a write list. -/

/-- One pending page-summary request (`{pageNum, pageText}`). -/
structure PageItem where
  pageNum : Nat
  pageText : String
deriving DecidableEq, Repr

/-- `MAX_BATCH_PAGES = 20`. -/
def MAX_BATCH_PAGES : Nat := 20

/-- `MAX_BATCH_TOKENS = 25000`. -/
def MAX_BATCH_TOKENS : Nat := 25000

/-- The fixed placeholder summary written for empty pages. -/
def EMPTY_PAGE_PLACEHOLDER : String := "No text content available for this page."

/-- `Math.ceil(text.length / 4)`. -/
def estimatedTokens (text : String) : Nat := (text.length + 3) / 4

/-- Sum of estimated tokens over a batch. -/
def sumTokens (batch : List PageItem) : Nat :=
  (batch.map (fun p => estimatedTokens p.pageText)).sum

/-- Whether `pageSummaryCache[n]` holds a summary. -/
def cacheHas (cache : List (Nat × String)) (n : Nat) : Bool :=
  cache.any (fun e => e.1 == n)

/-- JavaScript `String.prototype.trim`: remove leading and trailing
whitespace (internal whitespace is kept). -/
def jsTrim (s : String) : String :=
  String.mk (((s.toList.dropWhile Char.isWhitespace).reverse.dropWhile
    Char.isWhitespace).reverse)

/-- The empty-page guard `!item.pageText || item.pageText.trim().length < 10`. -/
def isShortText (t : String) : Bool :=
  t == "" || decide ((jsTrim t).length < 10)

/-- A page that is neither in the generating set nor already cached
(the filter used both by check 1 of the drain loop and by
`generateBatchSummaries`). -/
def freshPage (cache : List (Nat × String)) (gen : List Nat) (p : PageItem) : Bool :=
  !(gen.contains p.pageNum) && !(cacheHas cache p.pageNum)

/-- Result of one run of the inner batch-building `while` loop. -/
structure BuildRes where
  /-- the assembled batch -/
  batch : List PageItem
  /-- the queue left for the next outer iteration -/
  rem : List PageItem
  /-- `setPageSummary` placeholder writes issued while building -/
  writes : List (Nat × String)
deriving Repr

/-- The inner `while (batch.length < MAX_BATCH_PAGES && queue.length > 0)`
loop of `processSummaryQueue`: skip pages already generating or cached,
short-circuit near-empty pages with the placeholder, stop when a
non-first page would exceed the token budget, otherwise move the page
from the queue into the batch. -/
def buildBatch (cache : List (Nat × String)) (gen : List Nat) :
    List PageItem → List PageItem → Nat → BuildRes
  | [], batch, _ => ⟨batch, [], []⟩
  | item :: rest, batch, tokens =>
    if batch.length < MAX_BATCH_PAGES then
      if gen.contains item.pageNum || cacheHas cache item.pageNum then
        buildBatch cache gen rest batch tokens
      else if isShortText item.pageText then
        let r := buildBatch cache gen rest batch tokens
        { r with writes := (item.pageNum, EMPTY_PAGE_PLACEHOLDER) :: r.writes }
      else
        let est := estimatedTokens item.pageText
        if batch.length > 0 && tokens + est > MAX_BATCH_TOKENS then
          ⟨batch, item :: rest, []⟩
        else
          buildBatch cache gen rest (batch ++ [item]) (tokens + est)
    else
      ⟨batch, item :: rest, []⟩

/-- The outer drain loop of `processSummaryQueue` (fuel-indexed on the
number of outer iterations).  Each assembled batch is filtered once
more by `generateBatchSummaries` (`pagesToProcess`), and a batch that
filters to empty is not submitted. -/
def processSummaryQueueGo (cache : List (Nat × String)) (gen : List Nat) :
    Nat → List PageItem → List (List PageItem) × List (Nat × String)
  | 0, _ => ([], [])
  | _ + 1, [] => ([], [])
  | fuel + 1, item :: queueRest =>
    let r := buildBatch cache gen (item :: queueRest) [] 0
    let submitted := r.batch.filter (freshPage cache gen)
    let rest := processSummaryQueueGo cache gen fuel r.rem
    ((if submitted.isEmpty then rest.1 else submitted :: rest.1),
      r.writes ++ rest.2)

/-- `processSummaryQueue`: drain the whole pending queue, returning the
list of submitted batches and the placeholder writes.  An input queue
of length `n` needs at most `n` outer iterations, since every outer
iteration consumes at least one queue entry. -/
def processSummaryQueue (cache : List (Nat × String)) (gen : List Nat)
    (queue : List PageItem) : List (List PageItem) × List (Nat × String) :=
  processSummaryQueueGo cache gen queue.length queue

/-! ## Batch result distribution (`generateBatchSummaries` parse logic) -/

/-- A JSON value found under a page-number key of the parsed batch
result: a string summary or any other JSON value. -/
inductive JLit where
  | jstr (s : String)
  | jother
deriving DecidableEq, Repr

/-- `pat` is an initial segment of `s`. -/
def leadsWith : List Char → List Char → Bool
  | [], _ => true
  | _ :: _, [] => false
  | p :: ps, c :: cs => p == c && leadsWith ps cs

/-- `pat` is a final segment of `s`. -/
def trailsWith (pat s : List Char) : Bool :=
  leadsWith pat.reverse s.reverse

/-- Drop one leading newline if present (the `\n?` of the opening-fence
regex). -/
def stripNl : List Char → List Char
  | '\n' :: rest => rest
  | s => s

/-- Apply the closing-fence regex `/\n?` ++ "```" ++ `$/`. -/
def stripClose (s : List Char) : List Char :=
  if trailsWith ("\n```".toList) s then s.take (s.length - 4)
  else if trailsWith ("```".toList) s then s.take (s.length - 3)
  else s

/-- Markdown fence stripping in `generateBatchSummaries`: if the text
starts with a fenced code block marker, remove the opening marker (and
one following newline) and the closing marker (and one preceding
newline); otherwise leave the text untouched. -/
def stripFences (s : String) : String :=
  let cs := s.toList
  if leadsWith ("```json".toList) cs then
    String.mk (stripClose (stripNl (cs.drop 7)))
  else if leadsWith ("```".toList) cs then
    String.mk (stripClose (stripNl (cs.drop 3)))
  else s

/-- JavaScript object property lookup on a parsed JSON object. -/
def jsLookup (entries : List (String × JLit)) (key : String) : Option JLit :=
  (entries.find? (fun e => e.1 == key)).map (fun e => e.2)

/-- The result-distribution step of `generateBatchSummaries`: trim the
accumulated response, strip markdown fences, attempt a JSON parse
(abstracted by the oracle `parseJson`, standing for `JSON.parse`, with
`none` for a thrown `SyntaxError`).  On success each page whose key
maps to a truthy string gets that summary; on failure the whole trimmed
response is assigned to the first page of the batch only — and only
when the trimmed response is non-empty. -/
def distributeBatchResult
    (parseJson : String → Option (List (String × JLit)))
    (pages : List PageItem) (fullSummary : String) : List (Nat × String) :=
  let jsonText := stripFences (jsTrim fullSummary)
  match parseJson jsonText with
  | some entries =>
    pages.filterMap (fun p =>
      match jsLookup entries (Nat.repr p.pageNum) with
      | some (.jstr s) => if s = "" then none else some (p.pageNum, s)
      | _ => none)
  | none =>
    match pages with
    | [] => []
    | first :: _ =>
      if jsTrim fullSummary = "" then []
      else [(first.pageNum, jsTrim fullSummary)]

/-! ## Auxiliary definitions for the claims -/

/-- Number of non-whitespace characters of a string (the quantity the
spec's short-page sentence refers to). -/
def countNonWs (s : String) : Nat :=
  (s.toList.filter (fun c => !c.isWhitespace)).length

/-! ## C3: router rule order -/

/-- C3: `selectModel` applies its rules in fixed order with the first
match winning: image input, a word count over 10000 or text longer
than 50000 characters selects gemini (vision/long-context) regardless
of the other fields; otherwise `complex_reasoning` selects the
huggingface reasoning model, otherwise a history longer than 10
selects siliconflow (high volume), otherwise groq (lowest latency).
The two examples of the claim are included.  `effWordCount`,
`effTaskType` and `effHistoryLength` are the router's own defaulted
views of the optional fields. -/
theorem selectModel_rule_order (i : RouterInput) :
    ((i.hasImage = some true ∨ effWordCount i > 10000 ∨ i.text.length > 50000) →
      (selectModel i).provider = .gemini) ∧
    (¬ (i.hasImage = some true ∨ effWordCount i > 10000 ∨ i.text.length > 50000) →
      effTaskType i = .complex_reasoning → (selectModel i).provider = .huggingface) ∧
    (¬ (i.hasImage = some true ∨ effWordCount i > 10000 ∨ i.text.length > 50000) →
      effTaskType i ≠ .complex_reasoning → effHistoryLength i > 10 →
      (selectModel i).provider = .siliconflow) ∧
    (¬ (i.hasImage = some true ∨ effWordCount i > 10000 ∨ i.text.length > 50000) →
      effTaskType i ≠ .complex_reasoning → ¬ effHistoryLength i > 10 →
      (selectModel i).provider = .groq) ∧
    (selectModel { text := "x", wordCount := some 15000 }).provider = .gemini ∧
    (selectModel { text := "x", taskType := some TaskType.simple, wordCount := some 50 }).provider = .groq := by
  have himg : i.hasImage = some true ↔ effHasImage i = true := by
    cases h : i.hasImage with
    | none => simp [effHasImage, h]
    | some b => cases b <;> simp [effHasImage, h]
  refine ⟨?_, ?_, ?_, ?_, by decide, by decide⟩
  · intro h
    have : (effHasImage i || decide (effWordCount i > 10000) ||
        decide (i.text.length > 50000)) = true := by
      rcases h with h | h | h
      · simp [himg.mp h]
      · simp [h]
      · simp [h]
    simp [selectModel, this]
  · intro h ht
    rw [not_or, not_or] at h
    obtain ⟨h1, h2, h3⟩ := h
    have h1' : effHasImage i = false := by
      cases hv : effHasImage i
      · rfl
      · exact absurd (himg.mpr hv) h1
    simp [selectModel, h1', h2, h3, ht]
  · intro h ht hh
    rw [not_or, not_or] at h
    obtain ⟨h1, h2, h3⟩ := h
    have h1' : effHasImage i = false := by
      cases hv : effHasImage i
      · rfl
      · exact absurd (himg.mpr hv) h1
    simp [selectModel, h1', h2, h3, ht, hh]
  · intro h ht hh
    rw [not_or, not_or] at h
    obtain ⟨h1, h2, h3⟩ := h
    have h1' : effHasImage i = false := by
      cases hv : effHasImage i
      · rfl
      · exact absurd (himg.mpr hv) h1
    simp [selectModel, h1', h2, h3, ht, hh]

/-- C3 witness: the rule-order theorem applied at the claim's first
example input, `{wordCount: 15000}`. -/
theorem selectModel_rule_order_witness :
    (selectModel { text := "x", wordCount := some 15000 }).provider = .gemini :=
  (selectModel_rule_order { text := "x", wordCount := some 15000 }).1
    (by decide)

/-! ## C4: fallback list duplication -/

/-- C4 counterexample: for the excluded provider groq, the
exception-fallback path of `streamFromProvider` does not use the full
fixed priority list minus groq — its list omits github entirely. -/
theorem fallback_lists_differ :
    streamFallbackProviders .groq ≠
      fullFallbackPriority.filter (fun q => q != Provider.groq) := by decide

/-- C4 (amended): the missing-credentials path of the explain route
uses the complete fixed priority list
`[groq, siliconflow, huggingface, gemini, github]` with the excluded
provider removed, while the exception-fallback path of
`streamFromProvider` uses the same list in the same order but with
github additionally removed. -/
theorem fallback_lists_amended (p : Provider) :
    explainFallbackProviders p =
      fullFallbackPriority.filter (fun q => q != p) ∧
    streamFallbackProviders p =
      (fullFallbackPriority.filter (fun q => q != Provider.github)).filter
        (fun q => q != p) := by
  cases p <;> decide

/-! ## C10: explain endpoint input validation -/

/-- C10: a request body whose `term` field is missing or not a string
is answered with `400` and an error message.  The conclusion holds for
every credential environment `env`, and the outcome is the
`badRequest` constructor — the route returns before any model
selection, credential check or provider invocation (those can only
produce `invoke`/`noProviders` outcomes). -/
theorem explain_missing_term_400 (env : Provider → Bool) (body : ExplainBody)
    (h : body.term = none ∨
      ∃ v, body.term = some v ∧ ∀ s, v ≠ JsonVal.jstr s) :
    explainPOST env body = .badRequest 400 "Term is required" := by
  rcases h with h | ⟨v, hv, hns⟩
  · simp [explainPOST, h]
  · cases v with
    | jstr s => exact absurd rfl (hns s)
    | jnum n => simp [explainPOST, hv]
    | jbool b => simp [explainPOST, hv]
    | jnull => simp [explainPOST, hv]

/-- C10 witness: a body whose `term` is the JSON number `5` is
rejected with `400` under a fully-configured environment. -/
theorem explain_missing_term_400_witness :
    explainPOST (fun _ => true) { term := some (.jnum 5) } =
      .badRequest 400 "Term is required" :=
  explain_missing_term_400 (fun _ => true) { term := some (.jnum 5) }
    (Or.inr ⟨.jnum 5, rfl, by intro s h; exact JsonVal.noConfusion h⟩)

/-! ## C7: fallback exhaustion never hangs -/

/-- When no provider has credentials, no list yields a first available
provider. -/
theorem findFirstAvailable_none (env : Provider → Bool)
    (henv : ∀ p, env p = false) :
    ∀ l, findFirstAvailable env l = none := by
  intro l
  induction l with
  | nil => rfl
  | cons p rest ih => simp [findFirstAvailable, checkApiKeys, henv p, ih]

/-- C7: with every provider's API-key check failing, the explain
endpoint (modelled from `route.ts`) returns the explicit `500`
"No API keys configured" error after exhausting the fallback list —
it never reaches the `invoke` outcome, so no provider is called — and
the spec-modelled generic submission path answers every job type with
a `ProviderUnavailable` error.  Both functions are total, so neither
path can hang. -/
theorem no_creds_errors_not_hangs (env : Provider → Bool)
    (henv : ∀ p, env p = false) (body : ExplainBody) (t : String)
    (hterm : body.term = some (.jstr t)) (hne : t ≠ "") :
    explainPOST env body = .noProviders 500 noKeysMsg ∧
    ∀ selection : ModelSelection, submitJobModel env selection =
      .noProviders 500 "ProviderUnavailable: no provider credentials configured" := by
  constructor
  · simp [explainPOST, hterm, hne, checkApiKeys, henv,
      findFirstAvailable_none env henv]
  · intro selection
    simp [submitJobModel, checkApiKeys, henv,
      findFirstAvailable_none env henv]

/-- C7 witness: the theorem applied at a concrete body and the
all-keys-missing environment. -/
theorem no_creds_errors_not_hangs_witness :
    explainPOST (fun _ => false) { term := some (.jstr "photosynthesis") } =
      .noProviders 500 noKeysMsg :=
  (no_creds_errors_not_hangs (fun _ => false)
    (fun _ => rfl) { term := some (.jstr "photosynthesis") }
    "photosynthesis" rfl (by decide)).1

/-! ## C9: unparseable batch result degradation -/

/-- C9 counterexample: a whitespace-only batch response is unparseable
as JSON, yet the code resolves no page at all — in particular the first
page of the batch is not assigned the raw response text, contrary to
the claim as stated (the code assigns the trimmed text and only when it
is non-empty). -/
theorem batch_parse_failure_counterexample :
    distributeBatchResult (fun _ => none) [⟨1, "aaaa"⟩, ⟨2, "bbbb"⟩] " " = [] ∧
    ([] : List (Nat × String)) ≠ [(1, " ")] := ⟨by decide, by decide⟩

/-- C9 (amended): for every batch whose response remains unparseable as
JSON after fenced-code-block stripping (`parseJson` returns `none`),
the assembler resolves only the first page of the batch, assigning it
the trimmed raw response text — provided that text is non-empty; a
whitespace-only response resolves nothing.  Every other page of the
batch stays unresolved (the write list contains at most the first
page), and the function returns normally: the job is not failed and no
retry is issued. -/
theorem batch_parse_failure_first_page
    (parseJson : String → Option (List (String × JLit)))
    (first : PageItem) (restPages : List PageItem) (raw : String)
    (hfail : parseJson (stripFences (jsTrim raw)) = none) :
    distributeBatchResult parseJson (first :: restPages) raw =
      if jsTrim raw = "" then [] else [(first.pageNum, jsTrim raw)] := by
  simp [distributeBatchResult, hfail]

/-- C9 witness: a two-page batch with the unparseable response
`" raw text "` resolves exactly the first page with the trimmed
response. -/
theorem batch_parse_failure_first_page_witness :
    distributeBatchResult (fun _ => none) [⟨1, "aaaa"⟩, ⟨2, "bbbb"⟩]
      " raw text " = [(1, "raw text")] := by
  rw [show ([(⟨1, "aaaa"⟩ : PageItem), ⟨2, "bbbb"⟩] : List PageItem) =
    ⟨1, "aaaa"⟩ :: [⟨2, "bbbb"⟩] from rfl]
  rw [batch_parse_failure_first_page (fun _ => none) ⟨1, "aaaa"⟩
    [⟨2, "bbbb"⟩] " raw text " rfl]
  decide

/-! ## C5: siliconflow exempt from the exception-fallback path -/

/-- On a github-free list (as every `streamFallbackProviders` list is),
the `catch`-block fallback loop computes exactly the reference chain
walk: each credentialed provider is attempted in order through its
faithful invocation (`invokePrimary`, under which gemini always throws,
which is why the loop's `continue` on gemini does not change the
outcome). -/
theorem runFallbacks_eq_chainAttempt (env : Provider → Bool)
    (network : Provider → Except StreamErr String) :
    ∀ l : List Provider, Provider.github ∉ l →
      (runFallbacks env network l).2 = chainAttempt env network l := by
  intro l
  induction l with
  | nil => intro _; rfl
  | cons p rest ih =>
    intro h
    have hg : p ≠ .github := fun hp => h (hp ▸ List.mem_cons_self p rest)
    have hrest : Provider.github ∉ rest := fun hr => h (List.mem_cons_of_mem p hr)
    by_cases hav : (checkApiKeys env p).available = true
    · cases p with
      | gemini => simp [runFallbacks, chainAttempt, hav, invokePrimary, ih hrest]
      | github => exact absurd rfl hg
      | groq =>
        cases hn : network .groq with
        | ok s => simp [runFallbacks, chainAttempt, hav, invokePrimary, hn]
        | error e => simp [runFallbacks, chainAttempt, hav, invokePrimary, hn, ih hrest]
      | siliconflow =>
        cases hn : network .siliconflow with
        | ok s => simp [runFallbacks, chainAttempt, hav, invokePrimary, hn]
        | error e => simp [runFallbacks, chainAttempt, hav, invokePrimary, hn, ih hrest]
      | huggingface =>
        cases hn : network .huggingface with
        | ok s => simp [runFallbacks, chainAttempt, hav, invokePrimary, hn]
        | error e => simp [runFallbacks, chainAttempt, hav, invokePrimary, hn, ih hrest]
    · have hav' : (checkApiKeys env p).available = false := by
        cases hv : (checkApiKeys env p).available
        · rfl
        · exact absurd hv hav
      cases p <;> simp [runFallbacks, chainAttempt, hav', ih hrest]

/-- `streamFallbackProviders` never contains github. -/
theorem github_not_mem_streamFallback (p : Provider) :
    Provider.github ∉ streamFallbackProviders p := by
  cases p <;> decide

/-- C5: when the primary provider siliconflow throws, the error is
rethrown immediately — no fallback provider is attempted (the network
trace is just the primary call).  For every other primary provider
whose invocation throws `e`, the fallback chain is attempted: the
outcome equals the reference chain walk over the fallback list (first
credentialed success wins), and only when the walk is exhausted is the
original error `e` rethrown. -/
theorem siliconflow_exempt (env : Provider → Bool)
    (network : Provider → Except StreamErr String) (e : StreamErr) :
    (network .siliconflow = .error e →
      streamFromProvider env network .siliconflow =
        ([.siliconflow], .error e)) ∧
    (∀ p, p ≠ .siliconflow → invokePrimary network p = .error e →
      (streamFromProvider env network p).2 =
        (match chainAttempt env network (streamFallbackProviders p) with
          | some s => .ok s
          | none => .error e)) := by
  constructor
  · intro hn
    simp [streamFromProvider, invokePrimary, hn, primaryAttempts]
  · intro p hp he
    have hchain := runFallbacks_eq_chainAttempt env network
      (streamFallbackProviders p) (github_not_mem_streamFallback p)
    cases hch : chainAttempt env network (streamFallbackProviders p) with
    | some s =>
      have hr : (runFallbacks env network (streamFallbackProviders p)).2 = some s :=
        hchain.trans hch
      simp [streamFromProvider, he, hp, hr]
    | none =>
      have hr : (runFallbacks env network (streamFallbackProviders p)).2 = none :=
        hchain.trans hch
      simp [streamFromProvider, he, hp, hr]

/-- C5 witness: with a network on which every provider fails, a
siliconflow primary throw is returned unchanged with no fallback
attempt. -/
theorem siliconflow_exempt_witness :
    streamFromProvider (fun _ => true)
      (fun p => .error (.upstream p 429)) .siliconflow =
      ([.siliconflow], .error (.upstream .siliconflow 429)) :=
  (siliconflow_exempt (fun _ => true) (fun p => .error (.upstream p 429))
    (.upstream .siliconflow 429)).1 rfl

/-! ## C6: priority ordering of the job queue -/

theorem jobOrd_refl (a : Job) : jobOrd a a := Or.inr ⟨rfl, le_refl _⟩

theorem jobBefore_ord {a b : Job} (h : jobBefore a b = true) : jobOrd a b := by
  simp only [jobBefore, Bool.or_eq_true, Bool.and_eq_true, decide_eq_true_eq] at h
  rcases h with h | ⟨h1, h2⟩
  · exact Or.inl h
  · exact Or.inr ⟨h1, le_of_lt h2⟩

theorem not_jobBefore_ord {a b : Job} (h : jobBefore a b = false) : jobOrd b a := by
  simp only [jobBefore, Bool.or_eq_false_iff, Bool.and_eq_false_iff,
    decide_eq_false_iff_not] at h
  obtain ⟨h1, h2⟩ := h
  rcases Nat.lt_or_ge (JOB_PRIORITIES a.type) (JOB_PRIORITIES b.type) with hlt | hge
  · exact Or.inl hlt
  · have heq : JOB_PRIORITIES a.type = JOB_PRIORITIES b.type :=
      le_antisymm (le_of_not_lt h1) hge
    rcases h2 with h2 | h2
    · exact absurd heq h2
    · exact Or.inr ⟨heq.symm, le_of_not_lt h2⟩

theorem jobOrd_trans {a b c : Job} (h1 : jobOrd a b) (h2 : jobOrd b c) :
    jobOrd a c := by
  rcases h1 with h1 | ⟨h1p, h1c⟩
  · rcases h2 with h2 | ⟨h2p, _⟩
    · exact Or.inl (lt_trans h2 h1)
    · exact Or.inl (h2p ▸ h1)
  · rcases h2 with h2 | ⟨h2p, h2c⟩
    · exact Or.inl (h1p ▸ h2)
    · exact Or.inr ⟨h1p.trans h2p, le_trans h1c h2c⟩

theorem selectBest_ord : ∀ (l : List Job) (b : Job),
    jobOrd (selectBest b l) b ∧ ∀ x ∈ l, jobOrd (selectBest b l) x := by
  intro l
  induction l with
  | nil => exact fun b => ⟨jobOrd_refl b, by simp⟩
  | cons j rest ih =>
    intro b
    by_cases hb : jobBefore j b = true
    · have hstep : selectBest b (j :: rest) = selectBest j rest := by
        simp [selectBest, hb]
      obtain ⟨h1, h2⟩ := ih j
      refine hstep ▸ ⟨jobOrd_trans h1 (jobBefore_ord hb), ?_⟩
      intro x hx
      rcases List.mem_cons.mp hx with hx | hx
      · exact hx ▸ h1
      · exact h2 x hx
    · have hb' : jobBefore j b = false := by
        cases hv : jobBefore j b
        · rfl
        · exact absurd hv hb
      have hstep : selectBest b (j :: rest) = selectBest b rest := by
        simp [selectBest, hb']
      obtain ⟨h1, h2⟩ := ih b
      refine hstep ▸ ⟨h1, ?_⟩
      intro x hx
      rcases List.mem_cons.mp hx with hx | hx
      · exact hx ▸ jobOrd_trans h1 (not_jobBefore_ord hb')
      · exact h2 x hx

theorem selectBest_mem : ∀ (l : List Job) (b : Job), selectBest b l ∈ b :: l := by
  intro l
  induction l with
  | nil => intro b; simp [selectBest]
  | cons j rest ih =>
    intro b
    by_cases hb : jobBefore j b = true
    · have hstep : selectBest b (j :: rest) = selectBest j rest := by
        simp [selectBest, hb]
      rw [hstep]
      exact List.mem_cons_of_mem b (ih j)
    · have hb' : jobBefore j b = false := by
        cases hv : jobBefore j b
        · rfl
        · exact absurd hv hb
      have hstep : selectBest b (j :: rest) = selectBest b rest := by
        simp [selectBest, hb']
      rw [hstep]
      rcases List.mem_cons.mp (ih b) with h | h
      · rw [h]; exact List.mem_cons_self _ _
      · exact List.mem_cons_of_mem _ (List.mem_cons_of_mem _ h)

theorem claimNext_spec {q : List Job} {b : Job} {rest : List Job}
    (h : claimNext q = some (b, rest)) :
    (∀ x ∈ q, jobOrd b x) ∧ ∀ x ∈ rest, x ∈ q := by
  cases q with
  | nil => exact absurd h (by simp [claimNext])
  | cons j t =>
    have hb : b = selectBest j t ∧ rest = (j :: t).erase (selectBest j t) := by
      simpa [claimNext] using h.symm
    obtain ⟨hb1, hb2⟩ := hb
    constructor
    · intro x hx
      obtain ⟨h1, h2⟩ := selectBest_ord t j
      rcases List.mem_cons.mp hx with hx | hx
      · exact hb1 ▸ hx ▸ h1
      · exact hb1 ▸ h2 x hx
    · intro x hx
      rw [hb2] at hx
      exact List.erase_subset _ _ hx

theorem drainJobsGo_subset : ∀ (fuel : Nat) (q : List Job) (x : Job),
    x ∈ drainJobsGo fuel q → x ∈ q := by
  intro fuel
  induction fuel with
  | zero => intro q x h; exact absurd h (by simp [drainJobsGo])
  | succ f ih =>
    intro q x h
    cases hc : claimNext q with
    | none => rw [drainJobsGo, hc] at h; exact absurd h (by simp)
    | some br =>
      obtain ⟨b, rest⟩ := br
      rw [drainJobsGo, hc] at h
      rcases List.mem_cons.mp h with h | h
      · cases q with
        | nil => exact absurd hc (by simp [claimNext])
        | cons j t =>
          have hb : b = selectBest j t := by
            have := hc
            simp [claimNext] at this
            exact this.1.symm
          exact h ▸ hb ▸ selectBest_mem t j
      · exact (claimNext_spec hc).2 x (ih rest x h)

theorem drainJobsGo_pairwise : ∀ (fuel : Nat) (q : List Job),
    (drainJobsGo fuel q).Pairwise jobOrd := by
  intro fuel
  induction fuel with
  | zero => intro q; simp [drainJobsGo]
  | succ f ih =>
    intro q
    cases hc : claimNext q with
    | none => rw [drainJobsGo, hc]; simp
    | some br =>
      obtain ⟨b, rest⟩ := br
      rw [drainJobsGo, hc]
      refine List.pairwise_cons.mpr ⟨?_, ih rest⟩
      intro x hx
      exact (claimNext_spec hc).1 x
        ((claimNext_spec hc).2 x (drainJobsGo_subset f rest x hx))

/-- C6: job priorities are assigned by type as explain = 10,
summarize-batch = 5, summarize = 1 (from `JOB_PRIORITIES` in
`jobs.ts`), and the sequence obtained by repeatedly calling the
spec-modelled `claimNext` on any queued set is sorted by strictly
decreasing priority with FIFO (`createdAt`) order inside each priority
tier (`jobOrd` is exactly that precedence). -/
theorem claimNext_priority_order :
    (JOB_PRIORITIES .explain = 10 ∧ JOB_PRIORITIES .summarizeBatch = 5 ∧
      JOB_PRIORITIES .summarize = 1) ∧
    ∀ q : List Job, (drainJobs q).Pairwise jobOrd :=
  ⟨⟨rfl, rfl, rfl⟩, fun q => drainJobsGo_pairwise q.length q⟩

/-! ## C1 and C8: batch assembler invariants -/

theorem sumTokens_append_one (b : List PageItem) (p : PageItem) :
    sumTokens (b ++ [p]) = sumTokens b + estimatedTokens p.pageText := by
  simp [sumTokens]

theorem sumTokens_sublist {b1 b2 : List PageItem} (h : b1.Sublist b2) :
    sumTokens b1 ≤ sumTokens b2 :=
  List.Sublist.sum_le_sum (h.map _) (fun a _ => Nat.zero_le a)

/-- Core invariant of the inner batch-building loop: starting from an
accumulator that satisfies the page bound and the token bound (with the
single-page exemption), the finished batch satisfies them too. -/
theorem buildBatch_inv (cache : List (Nat × String)) (gen : List Nat) :
    ∀ (q batch : List PageItem) (tokens : Nat),
      tokens = sumTokens batch → batch.length ≤ MAX_BATCH_PAGES →
      (batch.length ≤ 1 ∨ tokens ≤ MAX_BATCH_TOKENS) →
      (buildBatch cache gen q batch tokens).batch.length ≤ MAX_BATCH_PAGES ∧
        ((buildBatch cache gen q batch tokens).batch.length ≤ 1 ∨
          sumTokens (buildBatch cache gen q batch tokens).batch ≤ MAX_BATCH_TOKENS) := by
  intro q
  induction q with
  | nil =>
    intro batch tokens ht hlen hinv
    rw [buildBatch]
    refine ⟨hlen, ?_⟩
    rcases hinv with h | h
    · exact Or.inl h
    · exact Or.inr (ht ▸ h)
  | cons item rest ih =>
    intro batch tokens ht hlen hinv
    rw [buildBatch]
    by_cases h20 : batch.length < MAX_BATCH_PAGES
    · rw [if_pos h20]
      by_cases hskip : (gen.contains item.pageNum || cacheHas cache item.pageNum) = true
      · rw [if_pos hskip]
        exact ih batch tokens ht hlen hinv
      · rw [if_neg hskip]
        by_cases hshort : isShortText item.pageText = true
        · rw [if_pos hshort]
          exact ih batch tokens ht hlen hinv
        · rw [if_neg hshort]
          by_cases hbreak : (decide (batch.length > 0) &&
              decide (tokens + estimatedTokens item.pageText > MAX_BATCH_TOKENS)) = true
          · rw [if_pos hbreak]
            refine ⟨hlen, ?_⟩
            rcases hinv with h | h
            · exact Or.inl h
            · exact Or.inr (ht ▸ h)
          · rw [if_neg hbreak]
            apply ih
            · rw [sumTokens_append_one, ht]
            · simpa [Nat.succ_le_iff] using h20
            · cases hbat : batch with
              | nil => exact Or.inl (by simp)
              | cons x xs =>
                right
                have hpos : decide (batch.length > 0) = true := by
                  subst hbat; simp
                have hnb : decide (tokens + estimatedTokens item.pageText >
                    MAX_BATCH_TOKENS) = false := by
                  cases hv : decide (tokens + estimatedTokens item.pageText >
                      MAX_BATCH_TOKENS)
                  · rfl
                  · exact absurd (by simp [hpos, hv]) hbreak
                exact le_of_not_lt (of_decide_eq_false hnb)
    · rw [if_neg h20]
      refine ⟨hlen, ?_⟩
      rcases hinv with h | h
      · exact Or.inl h
      · exact Or.inr (ht ▸ h)

/-- Every page of a finished batch either came from the accumulator or
is a fresh, non-short page of the queue. -/
theorem buildBatch_mem_not_short (cache : List (Nat × String)) (gen : List Nat) :
    ∀ (q batch : List PageItem) (tokens : Nat) (p : PageItem),
      p ∈ (buildBatch cache gen q batch tokens).batch →
      p ∈ batch ∨ (isShortText p.pageText = false ∧ freshPage cache gen p = true) := by
  intro q
  induction q with
  | nil =>
    intro batch tokens p hp
    rw [buildBatch] at hp
    exact Or.inl hp
  | cons item rest ih =>
    intro batch tokens p hp
    rw [buildBatch] at hp
    by_cases h20 : batch.length < MAX_BATCH_PAGES
    · rw [if_pos h20] at hp
      by_cases hskip : (gen.contains item.pageNum || cacheHas cache item.pageNum) = true
      · rw [if_pos hskip] at hp
        exact ih batch tokens p hp
      · rw [if_neg hskip] at hp
        by_cases hshort : isShortText item.pageText = true
        · rw [if_pos hshort] at hp
          exact ih batch tokens p hp
        · rw [if_neg hshort] at hp
          by_cases hbreak : (decide (batch.length > 0) &&
              decide (tokens + estimatedTokens item.pageText > MAX_BATCH_TOKENS)) = true
          · rw [if_pos hbreak] at hp
            exact Or.inl hp
          · rw [if_neg hbreak] at hp
            rcases ih _ _ p hp with hpb | hcond
            · rcases List.mem_append.mp hpb with hpb | hpb
              · exact Or.inl hpb
              · right
                have hpi : p = item := by simpa using hpb
                subst hpi
                constructor
                · cases hv : isShortText p.pageText
                  · rfl
                  · exact absurd hv hshort
                · have hno : (gen.contains p.pageNum || cacheHas cache p.pageNum) = false := by
                    cases hv : (gen.contains p.pageNum || cacheHas cache p.pageNum)
                    · rfl
                    · exact absurd hv hskip
                  simp only [Bool.or_eq_false_iff] at hno
                  simp only [freshPage]
                  rw [hno.1, hno.2]
                  rfl
            · exact Or.inr hcond
    · rw [if_neg h20] at hp
      exact Or.inl hp

/-- A short fresh page of the queue either receives its placeholder
write during this inner loop or is left in the remaining queue. -/
theorem buildBatch_write_or_rem (cache : List (Nat × String)) (gen : List Nat) :
    ∀ (q batch : List PageItem) (tokens : Nat) (item : PageItem),
      item ∈ q → isShortText item.pageText = true →
      freshPage cache gen item = true →
      (item.pageNum, EMPTY_PAGE_PLACEHOLDER) ∈
          (buildBatch cache gen q batch tokens).writes ∨
        item ∈ (buildBatch cache gen q batch tokens).rem := by
  intro q
  induction q with
  | nil => intro batch tokens item hmem; exact absurd hmem (by simp)
  | cons hd rest ih =>
    intro batch tokens item hmem hshort hfresh
    rw [buildBatch]
    by_cases h20 : batch.length < MAX_BATCH_PAGES
    · rw [if_pos h20]
      by_cases hskip : (gen.contains hd.pageNum || cacheHas cache hd.pageNum) = true
      · rw [if_pos hskip]
        rcases List.mem_cons.mp hmem with heq | hmem'
        · subst heq
          simp only [freshPage, Bool.and_eq_true, Bool.not_eq_true'] at hfresh
          rw [hfresh.1, hfresh.2] at hskip
          exact absurd hskip (by simp)
        · exact ih batch tokens item hmem' hshort hfresh
      · rw [if_neg hskip]
        by_cases hshorthd : isShortText hd.pageText = true
        · rw [if_pos hshorthd]
          rcases List.mem_cons.mp hmem with heq | hmem'
          · subst heq
            exact Or.inl (List.mem_cons_self _ _)
          · rcases ih batch tokens item hmem' hshort hfresh with hw | hr
            · exact Or.inl (List.mem_cons_of_mem _ hw)
            · exact Or.inr hr
        · rw [if_neg hshorthd]
          rcases List.mem_cons.mp hmem with heq | hmem'
          · subst heq
            exact absurd hshort hshorthd
          · by_cases hbreak : (decide (batch.length > 0) &&
                decide (tokens + estimatedTokens hd.pageText > MAX_BATCH_TOKENS)) = true
            · rw [if_pos hbreak]
              exact Or.inr (List.mem_cons_of_mem _ hmem')
            · rw [if_neg hbreak]
              exact ih _ _ item hmem' hshort hfresh
    · rw [if_neg h20]
      exact Or.inr hmem

/-- The remaining queue left by the inner loop is never longer than the
input queue. -/
theorem buildBatch_rem_length (cache : List (Nat × String)) (gen : List Nat) :
    ∀ (q batch : List PageItem) (tokens : Nat),
      (buildBatch cache gen q batch tokens).rem.length ≤ q.length := by
  intro q
  induction q with
  | nil => intro batch tokens; rw [buildBatch]
  | cons hd rest ih =>
    intro batch tokens
    rw [buildBatch]
    by_cases h20 : batch.length < MAX_BATCH_PAGES
    · rw [if_pos h20]
      by_cases hskip : (gen.contains hd.pageNum || cacheHas cache hd.pageNum) = true
      · rw [if_pos hskip]
        exact le_trans (ih batch tokens) (Nat.le_succ _)
      · rw [if_neg hskip]
        by_cases hshort : isShortText hd.pageText = true
        · rw [if_pos hshort]
          exact le_trans (ih batch tokens) (Nat.le_succ _)
        · rw [if_neg hshort]
          by_cases hbreak : (decide (batch.length > 0) &&
              decide (tokens + estimatedTokens hd.pageText > MAX_BATCH_TOKENS)) = true
          · rw [if_pos hbreak]
          · rw [if_neg hbreak]
            exact le_trans (ih _ _) (Nat.le_succ _)
    · rw [if_neg h20]

/-- Starting from an empty accumulator, the inner loop always consumes
at least the head of a non-empty queue. -/
theorem buildBatch_rem_lt (cache : List (Nat × String)) (gen : List Nat)
    (hd : PageItem) (rest : List PageItem) :
    (buildBatch cache gen (hd :: rest) [] 0).rem.length < (hd :: rest).length := by
  rw [buildBatch]
  rw [if_pos (by decide : ([] : List PageItem).length < MAX_BATCH_PAGES)]
  by_cases hskip : (gen.contains hd.pageNum || cacheHas cache hd.pageNum) = true
  · rw [if_pos hskip]
    exact Nat.lt_succ_of_le (buildBatch_rem_length cache gen rest [] 0)
  · rw [if_neg hskip]
    by_cases hshort : isShortText hd.pageText = true
    · rw [if_pos hshort]
      exact Nat.lt_succ_of_le (buildBatch_rem_length cache gen rest [] 0)
    · rw [if_neg hshort]
      rw [if_neg (by simp : ¬ (decide (([] : List PageItem).length > 0) &&
        decide (0 + estimatedTokens hd.pageText > MAX_BATCH_TOKENS)) = true)]
      exact Nat.lt_succ_of_le (buildBatch_rem_length cache gen rest _ _)

/-- Every batch emitted by the drain loop is non-empty, within the page
bound, and within the token bound unless it has exactly one page. -/
theorem processSummaryQueueGo_batches (cache : List (Nat × String)) (gen : List Nat) :
    ∀ (fuel : Nat) (q b : List PageItem),
      b ∈ (processSummaryQueueGo cache gen fuel q).1 →
      1 ≤ b.length ∧ b.length ≤ MAX_BATCH_PAGES ∧
        (b.length = 1 ∨ sumTokens b ≤ MAX_BATCH_TOKENS) := by
  intro fuel
  induction fuel with
  | zero => intro q b h; exact absurd h (by rw [processSummaryQueueGo]; simp)
  | succ f ih =>
    intro q b h
    cases q with
    | nil => exact absurd h (by rw [processSummaryQueueGo]; simp)
    | cons hd rest =>
      rw [processSummaryQueueGo] at h
      simp only at h
      by_cases hsub : ((buildBatch cache gen (hd :: rest) [] 0).batch.filter
          (freshPage cache gen)).isEmpty = true
      · rw [if_pos hsub] at h
        exact ih _ b h
      · rw [if_neg hsub] at h
        rcases List.mem_cons.mp h with hb | h
        · subst hb
          have hfil : ((buildBatch cache gen (hd :: rest) [] 0).batch.filter
              (freshPage cache gen)).Sublist
              (buildBatch cache gen (hd :: rest) [] 0).batch :=
            List.filter_sublist _
          obtain ⟨hlen, hinv⟩ := buildBatch_inv cache gen (hd :: rest) [] 0 rfl
            (by decide) (Or.inl (by decide))
          have hpos : 1 ≤ ((buildBatch cache gen (hd :: rest) [] 0).batch.filter
              (freshPage cache gen)).length := by
            cases hc : (buildBatch cache gen (hd :: rest) [] 0).batch.filter
                (freshPage cache gen) with
            | nil => exact absurd (by rw [hc]; rfl) hsub
            | cons x xs => simp
          refine ⟨hpos, le_trans hfil.length_le hlen, ?_⟩
          rcases hinv with h1 | h1
          · exact Or.inl (le_antisymm (le_trans hfil.length_le h1) hpos)
          · exact Or.inr (le_trans (sumTokens_sublist hfil) h1)
        · exact ih _ b h

/-- C1: for every input page set (under arbitrary cache and generating
snapshots), every batch submitted by the drain loop of
`processSummaryQueue` contains at most `MAX_BATCH_PAGES = 20` pages,
and its total estimated tokens (the sum of `ceil(len(pageText)/4)`
over its pages) is at most `MAX_BATCH_TOKENS = 25000` unless the batch
contains exactly one page — a lone oversized page is admitted alone. -/
theorem batch_token_page_limits (cache : List (Nat × String)) (gen : List Nat)
    (queue : List PageItem) (b : List PageItem)
    (hb : b ∈ (processSummaryQueue cache gen queue).1) :
    b.length ≤ MAX_BATCH_PAGES ∧
      (b.length = 1 ∨ sumTokens b ≤ MAX_BATCH_TOKENS) := by
  obtain ⟨_, h2, h3⟩ := processSummaryQueueGo_batches cache gen queue.length queue b hb
  exact ⟨h2, h3⟩

/-- C1 witness: a concrete one-page queue produces exactly one batch,
and the theorem applies to it. -/
theorem batch_token_page_limits_witness :
    ([(⟨1, "this is a reasonably long page text"⟩ : PageItem)]).length ≤
        MAX_BATCH_PAGES ∧
      (([(⟨1, "this is a reasonably long page text"⟩ : PageItem)]).length = 1 ∨
        sumTokens [⟨1, "this is a reasonably long page text"⟩] ≤ MAX_BATCH_TOKENS) :=
  batch_token_page_limits [] [] [⟨1, "this is a reasonably long page text"⟩]
    [⟨1, "this is a reasonably long page text"⟩] (by decide)

/-- C8 counterexample: the page text `"a b c d e f"` has only 6
non-whitespace characters (fewer than 10), yet the drain loop does not
short-circuit it: no placeholder is written and the page is submitted
to a provider in a batch — because the code's guard is
`pageText.trim().length < 10`, which counts internal whitespace. -/
theorem short_circuit_counterexample :
    countNonWs "a b c d e f" < 10 ∧
    processSummaryQueue [] [] [⟨1, "a b c d e f"⟩] =
      ([[⟨1, "a b c d e f"⟩]], []) := ⟨by decide, by decide⟩

/-- No page of any submitted batch is short (trimmed length under 10 or
empty). -/
theorem processSummaryQueueGo_not_short (cache : List (Nat × String)) (gen : List Nat) :
    ∀ (fuel : Nat) (q b : List PageItem) (p : PageItem),
      b ∈ (processSummaryQueueGo cache gen fuel q).1 → p ∈ b →
      isShortText p.pageText = false := by
  intro fuel
  induction fuel with
  | zero => intro q b p h; exact absurd h (by rw [processSummaryQueueGo]; simp)
  | succ f ih =>
    intro q b p h hp
    cases q with
    | nil => exact absurd h (by rw [processSummaryQueueGo]; simp)
    | cons hd rest =>
      rw [processSummaryQueueGo] at h
      simp only at h
      by_cases hsub : ((buildBatch cache gen (hd :: rest) [] 0).batch.filter
          (freshPage cache gen)).isEmpty = true
      · rw [if_pos hsub] at h
        exact ih _ b p h hp
      · rw [if_neg hsub] at h
        rcases List.mem_cons.mp h with hb | h
        · subst hb
          have hpb : p ∈ (buildBatch cache gen (hd :: rest) [] 0).batch :=
            List.mem_of_mem_filter hp
          rcases buildBatch_mem_not_short cache gen (hd :: rest) [] 0 p hpb with
            habs | hcond
          · exact absurd habs (by simp)
          · exact hcond.1
        · exact ih _ b p h hp

/-- A short fresh page of the queue always receives its placeholder
write before the drain loop finishes. -/
theorem processSummaryQueueGo_write_mem (cache : List (Nat × String)) (gen : List Nat) :
    ∀ (fuel : Nat) (q : List PageItem) (item : PageItem),
      q.length ≤ fuel → item ∈ q → isShortText item.pageText = true →
      freshPage cache gen item = true →
      (item.pageNum, EMPTY_PAGE_PLACEHOLDER) ∈
        (processSummaryQueueGo cache gen fuel q).2 := by
  intro fuel
  induction fuel with
  | zero =>
    intro q item hlen hmem
    rw [List.length_eq_zero.mp (Nat.le_zero.mp hlen)] at hmem
    exact absurd hmem (by simp)
  | succ f ih =>
    intro q item hlen hmem hshort hfresh
    cases q with
    | nil => exact absurd hmem (by simp)
    | cons hd rest =>
      rw [processSummaryQueueGo]
      simp only
      rcases buildBatch_write_or_rem cache gen (hd :: rest) [] 0 item hmem
        hshort hfresh with hw | hr
      · exact List.mem_append.mpr (Or.inl hw)
      · refine List.mem_append.mpr (Or.inr ?_)
        refine ih _ item ?_ hr hshort hfresh
        have hlt := buildBatch_rem_lt cache gen hd rest
        omega

/-- C8 (amended): a page whose text, after trimming leading and
trailing whitespace, has fewer than 10 characters (or is empty) — and
which is not already cached or marked generating — is short-circuited
by the drain loop: it receives the fixed placeholder summary and is
never included in any batch sent to a provider.  (The code's guard is
`trim().length < 10`, not a count of non-whitespace characters:
internal whitespace counts toward the threshold.) -/
theorem short_page_placeholder (cache : List (Nat × String)) (gen : List Nat)
    (queue : List PageItem) (item : PageItem)
    (hmem : item ∈ queue) (hshort : isShortText item.pageText = true)
    (hfresh : freshPage cache gen item = true) :
    (item.pageNum, EMPTY_PAGE_PLACEHOLDER) ∈
        (processSummaryQueue cache gen queue).2 ∧
      ∀ b ∈ (processSummaryQueue cache gen queue).1, item ∉ b := by
  constructor
  · exact processSummaryQueueGo_write_mem cache gen queue.length queue item
      (le_refl _) hmem hshort hfresh
  · intro b hb hib
    have := processSummaryQueueGo_not_short cache gen queue.length queue b item hb hib
    rw [hshort] at this
    exact Bool.true_eq_false.mp this

/-- C8 witness: the page `"short"` (5 characters) in a one-page queue
gets the placeholder and no batch is submitted. -/
theorem short_page_placeholder_witness :
    (1, EMPTY_PAGE_PLACEHOLDER) ∈
        (processSummaryQueue [] [] [⟨1, "short"⟩]).2 ∧
      ∀ b ∈ (processSummaryQueue [] [] [⟨1, "short"⟩]).1,
        (⟨1, "short"⟩ : PageItem) ∉ b :=
  short_page_placeholder [] [] [⟨1, "short"⟩] ⟨1, "short"⟩
    (by decide) (by decide) (by decide)

/-! ## C2: stream termination -/

/-- C2 counterexample: a job whose status reaches `completed` but whose
stored result has `success = false` closes the stream with the
terminal sentinel alone — no `result` event is ever emitted, contrary
to the claim that every completed job's stream emits exactly one
`result` event before the sentinel. -/
theorem stream_completed_counterexample :
    (JobStatusM.mk "completed" (some ⟨false, some (.str "x")⟩) none none).status
        = "completed" ∧
    runPolls {} [some (JobStatusM.mk "completed"
        (some ⟨false, some (.str "x")⟩) none none)] = [.done] ∧
    ∀ d, SEvent.result d ∉ runPolls {} [some (JobStatusM.mk "completed"
        (some ⟨false, some (.str "x")⟩) none none)] := by
  refine ⟨rfl, by decide, ?_⟩
  intro d
  rw [show runPolls {} [some (JobStatusM.mk "completed"
      (some ⟨false, some (.str "x")⟩) none none)] = [.done] from by decide]
  simp

/-- A successful completed result with truthy string or object data
produces exactly one `result` event. -/
theorem completedEvents_result {r : JobResultM} {d : ResultData}
    (hsucc : r.success = true) (hdata : r.data = some d)
    (htr : d.truthy = true) (hnn : ∀ n, d ≠ .num n) :
    completedEvents r = [.result d] := by
  cases d with
  | str s => simp [completedEvents, hsucc, hdata, htr]
  | obj o => simp [completedEvents, hsucc, hdata, htr]
  | num n => exact absurd rfl (hnn n)

/-- A poll that observes a non-terminal status never closes the stream,
only updates `lastStatus` (to the observed status or not at all), and
emits only `status`/`progress` events. -/
theorem pollStep_nonterminal {st : BridgeState} {u : JobStatusM}
    (hc : ¬ u.status = "completed") (hf : ¬ u.status = "failed") :
    (pollStep st (some u)).2.closed = st.closed ∧
    ((pollStep st (some u)).2.lastStatus = st.lastStatus ∨
      (pollStep st (some u)).2.lastStatus = some u.status) ∧
    ∀ ev ∈ (pollStep st (some u)).1,
      ev = SEvent.statusProcessing ∨ ∃ c, ev = SEvent.progress c := by
  rw [pollStep]
  by_cases hch : st.lastStatus ≠ some u.status
  · rw [if_pos hch]
    have h1 : (decide (u.status = "completed") && u.result.isSome) = false := by
      simp [hc]
    rw [h1]
    rw [if_neg (by simp)]
    rw [if_neg hf]
    by_cases hp : u.status = "processing"
    · rw [if_pos hp]
      refine ⟨rfl, Or.inr rfl, ?_⟩
      intro ev hev
      rcases List.mem_singleton.mp hev with rfl
      exact Or.inl rfl
    · rw [if_neg hp]
      exact ⟨rfl, Or.inr rfl, by simp⟩
  · rw [if_neg hch]
    cases hprog : u.progress with
    | none => exact ⟨rfl, Or.inl rfl, by simp⟩
    | some pv =>
      cases pv with
      | pct n => exact ⟨rfl, Or.inl rfl, by simp⟩
      | contentObj oc =>
        cases oc with
        | none => exact ⟨rfl, Or.inl rfl, by simp⟩
        | some c =>
          by_cases hcne : c ≠ ""
          · refine ⟨by simp [hcne], Or.inl (by simp [hcne]), ?_⟩
            intro ev hev
            simp [hcne] at hev
            subst hev
            exact Or.inr ⟨c, rfl⟩
          · refine ⟨by simp [hcne], Or.inl (by simp [hcne]), ?_⟩
            intro ev hev
            simp [hcne] at hev

/-- A poll observing a good completed status (result present,
successful, truthy non-number data) emits the `result` event and the
sentinel and closes. -/
theorem pollStep_terminal_completed {st : BridgeState} {u : JobStatusM}
    {r : JobResultM} {d : ResultData}
    (hlastc : st.lastStatus ≠ some "completed")
    (hstat : u.status = "completed") (hr : u.result = some r)
    (hsucc : r.success = true) (hdata : r.data = some d)
    (htr : d.truthy = true) (hnn : ∀ n, d ≠ .num n) :
    pollStep st (some u) =
      ([.result d, .done], { st with closed := true }) := by
  rw [pollStep]
  have hch : st.lastStatus ≠ some u.status := by rw [hstat]; exact hlastc
  rw [if_pos hch]
  have h1 : (decide (u.status = "completed") && u.result.isSome) = true := by
    simp [hstat, hr]
  rw [h1]
  rw [if_pos rfl]
  rw [hr]
  simp [completedEvents_result hsucc hdata htr hnn]

/-- A poll observing a failed status emits the `error` event with the
stored message and the sentinel and closes. -/
theorem pollStep_terminal_failed {st : BridgeState} {u : JobStatusM}
    (hlastf : st.lastStatus ≠ some "failed") (hstat : u.status = "failed") :
    pollStep st (some u) =
      ([.errorEv (jsOrDefault u.error "Job failed"), .done],
        { st with closed := true }) := by
  rw [pollStep]
  have hch : st.lastStatus ≠ some u.status := by rw [hstat]; exact hlastf
  rw [if_pos hch]
  have h1 : (decide (u.status = "completed") && u.result.isSome) = false := by
    simp [hstat]
  rw [h1]
  rw [if_neg (by simp)]
  rw [if_pos hstat]

/-- C2 (amended): for any open stream whose polls observe a sequence of
non-terminal statuses followed by a terminal one — `failed`, or
`completed` carrying a successful result payload (`success` true with
truthy string/object data) — the stream emits exactly one
`result`/`error` event followed by exactly one terminal sentinel and
closes: the whole event trace is some `status`/`progress` events, then
the payload event, then the sentinel, and nothing after it (whatever
further polls would have produced).  A completed status without such a
payload closes with the sentinel but no `result` event (see the
counterexample), which is the one correction to the claim. -/
theorem stream_terminal_events :
    ∀ (pre : List (Option JobStatusM)) (st : BridgeState)
      (s : JobStatusM) (rest : List (Option JobStatusM)) (tEv : SEvent),
      st.closed = false →
      st.lastStatus ≠ some "completed" → st.lastStatus ≠ some "failed" →
      (∀ q ∈ pre, ∃ u, q = some u ∧
        ¬ u.status = "completed" ∧ ¬ u.status = "failed") →
      ((s.status = "failed" ∧
          tEv = .errorEv (jsOrDefault s.error "Job failed")) ∨
        (s.status = "completed" ∧ ∃ r d, s.result = some r ∧
          r.success = true ∧ r.data = some d ∧ d.truthy = true ∧
          (∀ n, d ≠ .num n) ∧ tEv = .result d)) →
      ∃ evs, runPolls st (pre ++ some s :: rest) = evs ++ [tEv, .done] ∧
        ∀ ev ∈ evs, ev = SEvent.statusProcessing ∨
          ∃ c, ev = SEvent.progress c := by
  intro pre
  induction pre with
  | nil =>
    intro st s rest tEv hcl hlc hlf _ hterm
    refine ⟨[], ?_, by simp⟩
    rw [List.nil_append, runPolls]
    rcases hterm with ⟨hstat, htev⟩ |
      ⟨hstat, r, d, hr, hsucc, hdata, htr, hnn, htev⟩
    · rw [pollStep_terminal_failed hlf hstat, htev]
      simp
    · rw [pollStep_terminal_completed hlc hstat hr hsucc hdata htr hnn, htev]
      simp
  | cons q pre' ih =>
    intro st s rest tEv hcl hlc hlf hpre hterm
    obtain ⟨u, hq, huc, huf⟩ := hpre q (List.mem_cons_self _ _)
    subst hq
    obtain ⟨hcl', hlast', hevs'⟩ := @pollStep_nonterminal st u huc huf
    have hcl'' : (pollStep st (some u)).2.closed = false := by
      rw [hcl', hcl]
    have hlc' : (pollStep st (some u)).2.lastStatus ≠ some "completed" := by
      rcases hlast' with h | h
      · rw [h]; exact hlc
      · rw [h]; intro hcon; exact huc (by injection hcon)
    have hlf' : (pollStep st (some u)).2.lastStatus ≠ some "failed" := by
      rcases hlast' with h | h
      · rw [h]; exact hlf
      · rw [h]; intro hcon; exact huf (by injection hcon)
    obtain ⟨evs, hrun, hgood⟩ := ih (pollStep st (some u)).2 s rest tEv hcl''
      hlc' hlf' (fun q hq => hpre q (List.mem_cons_of_mem _ hq)) hterm
    refine ⟨(pollStep st (some u)).1 ++ evs, ?_, ?_⟩
    · rw [List.cons_append, runPolls]
      simp only [hcl'', if_false, Bool.false_eq_true]
      rw [hrun, List.append_assoc]
    · intro ev hev
      rcases List.mem_append.mp hev with h | h
      · exact hevs' ev h
      · exact hgood ev h

/-- C2 witness: a queued poll followed by a good completed poll yields
a trace ending in exactly the `result` event and the sentinel. -/
theorem stream_terminal_events_witness :
    ∃ evs, runPolls {}
        ([some (JobStatusM.mk "queued" none none none)] ++
          some (JobStatusM.mk "completed"
            (some ⟨true, some (.str "hello")⟩) none none) :: []) =
        evs ++ [SEvent.result (.str "hello"), .done] ∧
      ∀ ev ∈ evs, ev = SEvent.statusProcessing ∨
        ∃ c, ev = SEvent.progress c :=
  stream_terminal_events [some (JobStatusM.mk "queued" none none none)] {}
    (JobStatusM.mk "completed" (some ⟨true, some (.str "hello")⟩) none none)
    [] (.result (.str "hello")) rfl (by simp) (by simp)
    (by
      intro q hq
      rw [List.mem_singleton.mp hq]
      exact ⟨JobStatusM.mk "queued" none none none, rfl, by decide, by decide⟩)
    (Or.inr ⟨rfl, ⟨true, some (.str "hello")⟩, .str "hello", rfl, rfl, rfl,
      rfl, by intro n h; exact ResultData.noConfusion h, rfl⟩)

end NeuroAssistant
